import Mathlib

/-!
Shallow embedding of the generic-serial-protocol crate: the message catalog
(src/message.rs, payload structs from src/messages.rs) and the framing codec
(src/serial_manager/mod.rs).  Bytes are modelled as `Nat` values; the
transport is a list of raw bytes and reads consume from its front.  Rust
panics (out-of-bounds indexing, `usize` subtraction underflow) are modelled
by an explicit `crash` outcome; `io::Error` (EOF on `read_exact`) by an
explicit end-of-input outcome.
-/

namespace SerialProtocol

/-- Wire constant `START_BYTE = 0x58` from src/serial_manager/mod.rs. -/
def START_BYTE : Nat := 0x58

/-- Wire constant `ESCAPE_BYTE = 0x42` from src/serial_manager/mod.rs. -/
def ESCAPE_BYTE : Nat := 0x42

/-- Wire constant `XOR_BYTE = 0x69` from src/serial_manager/mod.rs. -/
def XOR_BYTE : Nat := 0x69

namespace message_types

/-- Payload struct `Bytes` from src/messages.rs: an opaque byte vector. -/
structure Bytes where
  data : List Nat
  deriving DecidableEq

/-- Payload struct `U8` from src/messages.rs. -/
structure U8 where
  num : Nat
  deriving DecidableEq

/-- Payload struct `U16` from src/messages.rs. -/
structure U16 where
  num : Nat
  deriving DecidableEq

/-- Payload struct `MyString` from src/messages.rs.  A Rust `String` is
modelled by its UTF-8 byte sequence. -/
structure MyString where
  string : List Nat
  deriving DecidableEq

/-- Payload struct `Multi` from src/messages.rs. -/
structure Multi where
  num : Nat
  string : List Nat
  deriving DecidableEq

/-- Payload struct `NoOp` from src/messages.rs. -/
structure NoOp where
  deriving DecidableEq

/-- Payload enum `Status` from src/messages.rs. -/
inductive Status where
  | Ok
  | Error
  | Pending
  deriving DecidableEq

end message_types

/-- The `Message` enum from src/message.rs. -/
inductive Message where
  | Bytes (msg : message_types.Bytes)
  | U8 (msg : message_types.U8)
  | MyString (msg : message_types.MyString)
  | Multi (msg : message_types.Multi)
  | NoOp (msg : message_types.NoOp)
  | U16 (msg : message_types.U16)
  | Status (msg : message_types.Status)
  deriving DecidableEq

/-- `Message::message_type` from src/message.rs: the u16 tag of a variant. -/
def Message.message_type : Message → Nat
  | .Bytes _ => 0
  | .U8 _ => 1
  | .MyString _ => 2
  | .Multi _ => 3
  | .NoOp _ => 4
  | .U16 _ => 5
  | .Status _ => 6

/-- Little-endian byte pair of a u16 value (`u16::to_le_bytes`). -/
def le_bytes2 (n : Nat) : List Nat := [n % 256, n / 256 % 256]

/-- The wire discriminant of a `Status` value, from `Message::to_bytes`. -/
def status_code : message_types.Status → Nat
  | .Ok => 0
  | .Error => 1
  | .Pending => 2

/-- `Message::to_bytes` from src/message.rs: the payload bytes of a message. -/
def Message.to_bytes : Message → List Nat
  | .Bytes msg => msg.data
  | .U8 msg => [msg.num]
  | .MyString msg => msg.string
  | .Multi msg => msg.num :: msg.string
  | .NoOp _ => []
  | .U16 msg => le_bytes2 msg.num
  | .Status s => [status_code s]

/-- UTF-8 validity of a byte sequence, as checked by Rust's
`String::from_utf8` (RFC 3629: no overlong forms, no surrogates, no code
points above U+10FFFF).  Range check for the first continuation byte of a
three-byte sequence. -/
def utf8_cont1_of3 (b c1 : Nat) : Bool :=
  if b = 0xE0 then decide (0xA0 ≤ c1) && decide (c1 < 0xC0)
  else if b = 0xED then decide (0x80 ≤ c1) && decide (c1 < 0xA0)
  else decide (0x80 ≤ c1) && decide (c1 < 0xC0)

/-- Range check for the first continuation byte of a four-byte UTF-8
sequence. -/
def utf8_cont1_of4 (b c1 : Nat) : Bool :=
  if b = 0xF0 then decide (0x90 ≤ c1) && decide (c1 < 0xC0)
  else if b = 0xF4 then decide (0x80 ≤ c1) && decide (c1 < 0x90)
  else decide (0x80 ≤ c1) && decide (c1 < 0xC0)

/-- Range check for a trailing UTF-8 continuation byte. -/
def utf8_cont (c : Nat) : Bool :=
  decide (0x80 ≤ c) && decide (c < 0xC0)

/-- UTF-8 validity of a whole byte sequence (the check performed by
`String::from_utf8` in `Message::from_bytes`). -/
def isValidUtf8 : List Nat → Bool
  | [] => true
  | b :: rest =>
    if b < 0x80 then isValidUtf8 rest
    else if b < 0xC2 then false
    else if b < 0xE0 then
      match rest with
      | c1 :: r => utf8_cont c1 && isValidUtf8 r
      | [] => false
    else if b < 0xF0 then
      match rest with
      | c1 :: c2 :: r => utf8_cont1_of3 b c1 && utf8_cont c2 && isValidUtf8 r
      | _ => false
    else if b < 0xF5 then
      match rest with
      | c1 :: c2 :: c3 :: r =>
        utf8_cont1_of4 b c1 && utf8_cont c2 && utf8_cont c3 && isValidUtf8 r
      | _ => false
    else false

/-- The `DecodeError` enum from src/errors.rs. -/
inductive DecodeError where
  | InvalidMessageType (t : Nat)
  | InvalidUtf8
  | InvalidEnumValue (b : Nat)
  deriving DecidableEq

/-- Outcome of `Message::from_bytes`: success, a `DecodeError`, or a Rust
panic (`crash`, from out-of-bounds indexing such as `data[0]` on an empty
vector). -/
inductive DecOutcome where
  | ok (msg : Message)
  | err (e : DecodeError)
  | crash
  deriving DecidableEq

/-- `Message::from_bytes` from src/message.rs.  Indexing `data[0]` /
`data[1]` on a too-short vector panics in Rust; those cases are `crash`. -/
def Message.from_bytes (message_type : Nat) (data : List Nat) : DecOutcome :=
  match message_type with
  | 0 => .ok (.Bytes ⟨data⟩)
  | 1 =>
    match data with
    | [] => .crash
    | b :: _ => .ok (.U8 ⟨b⟩)
  | 2 => if isValidUtf8 data then .ok (.MyString ⟨data⟩) else .err .InvalidUtf8
  | 3 =>
    match data with
    | [] => .crash
    | b :: rest =>
      if isValidUtf8 rest then .ok (.Multi ⟨b, rest⟩) else .err .InvalidUtf8
  | 4 => .ok (.NoOp ⟨⟩)
  | 5 =>
    match data with
    | b0 :: b1 :: _ => .ok (.U16 ⟨b0 + 256 * b1⟩)
    | _ => .crash
  | 6 =>
    match data with
    | [] => .crash
    | b :: _ =>
      match b with
      | 0 => .ok (.Status .Ok)
      | 1 => .ok (.Status .Error)
      | 2 => .ok (.Status .Pending)
      | invalid => .err (.InvalidEnumValue invalid)
  | t => .err (.InvalidMessageType t)

/-- The valid value space of the catalog: field values fit in their Rust
types (`u8` fields are below 256, `u16` below 65536, `String` fields are
valid UTF-8 byte sequences). -/
def Message.valid : Message → Bool
  | .Bytes msg => msg.data.all (fun b => decide (b < 256))
  | .U8 msg => decide (msg.num < 256)
  | .MyString msg => msg.string.all (fun b => decide (b < 256)) && isValidUtf8 msg.string
  | .Multi msg =>
    decide (msg.num < 256) && msg.string.all (fun b => decide (b < 256)) && isValidUtf8 msg.string
  | .NoOp _ => true
  | .U16 msg => decide (msg.num < 65536)
  | .Status _ => true

/-- `SerialManager::needs_escaping` from src/serial_manager/mod.rs. -/
def needs_escaping (byte : Nat) : Bool :=
  byte == START_BYTE || byte == ESCAPE_BYTE

/-- `SerialManager::write_escaped_byte`: the raw bytes written for one
logical byte. -/
def write_escaped_byte (byte : Nat) : List Nat :=
  if needs_escaping byte then [ESCAPE_BYTE, byte ^^^ XOR_BYTE] else [byte]

/-- `SerialManager::write_escaped_bytes`: stuffing of a logical byte
sequence. -/
def write_escaped_bytes : List Nat → List Nat
  | [] => []
  | b :: rest => write_escaped_byte b ++ write_escaped_bytes rest

/-- `SerialManager::send` from src/serial_manager/mod.rs: the raw bytes
written to the transport for one message.  The length is
`(message_type_bytes.len() + data.len()) as u16`, a truncating cast. -/
def send (m : Message) : List Nat :=
  let message_type_bytes := le_bytes2 m.message_type
  let data := m.to_bytes
  let length := (message_type_bytes.length + data.length) % 65536
  START_BYTE ::
    (write_escaped_bytes (le_bytes2 length) ++
      write_escaped_bytes message_type_bytes ++
      write_escaped_bytes data)

/-- The part of a sent frame after the leading `START_BYTE`: stuffed length,
stuffed tag, stuffed payload. -/
def frameBody (m : Message) : List Nat :=
  write_escaped_bytes (le_bytes2 ((2 + m.to_bytes.length) % 65536)) ++
    write_escaped_bytes (le_bytes2 m.message_type) ++
    write_escaped_bytes m.to_bytes

/-- Outcome of a low-level read: a value plus the remaining input, the
internal resync signal (a raw `START_BYTE` was read; the remainder follows
it), or end of input (`read_exact` fails with an `io::Error`). -/
inductive ReadOutcome (α : Type) where
  | ok (val : α) (rest : List Nat)
  | resync (rest : List Nat)
  | eof
  deriving DecidableEq

/-- A reading step of `SerialManager`: it consumes a prefix of the
transport's byte stream and yields a value plus the remaining stream, the
resync signal, or end of input. -/
def Parser (α : Type) : Type := List Nat → ReadOutcome α

/-- A step that reads nothing and yields `v` (a plain expression position
in the source). -/
def ppure {α : Type} (v : α) : Parser α := fun input => .ok v input

/-- Sequencing of reading steps with early return, the model of Rust's `?`
operator: resync and end-of-input propagate. -/
def pbind {α β : Type} (p : Parser α) (q : α → Parser β) : Parser β :=
  fun input =>
    match p input with
    | .ok a rest => q a rest
    | .resync r => .resync r
    | .eof => .eof

/-- `SerialManager::read_byte`: one raw byte; a `START_BYTE` raises the
resync signal. -/
def read_byte : Parser Nat
  | [] => .eof
  | b :: rest => if b = START_BYTE then .resync rest else .ok b rest

/-- `SerialManager::read_escaped_byte`: one logical byte, undoing the
escape transform. -/
def read_escaped_byte : Parser Nat :=
  pbind read_byte fun byte =>
    if byte = ESCAPE_BYTE then
      pbind read_byte fun next_byte => ppure (next_byte ^^^ XOR_BYTE)
    else ppure byte

/-- `SerialManager::read_escaped_bytes`: a run of `length` logical bytes,
collected in order. -/
def read_escaped_bytes : Nat → Parser (List Nat)
  | 0 => ppure []
  | n + 1 =>
    pbind read_escaped_byte fun b =>
    pbind (read_escaped_bytes n) fun bs =>
    ppure (b :: bs)

/-- `SerialManager::read_u16`: two logical bytes combined little-endian
(`read_escaped_bytes(2)` then `u16::from_le_bytes`). -/
def read_u16 : Parser Nat :=
  pbind read_escaped_byte fun b0 =>
  pbind read_escaped_byte fun b1 =>
  ppure (b0 + 256 * b1)

/-- `SerialManager::wait_for_start_byte`: discard raw bytes until a
`START_BYTE` is consumed; `none` is an `io::Error` (EOF first). -/
def wait_for_start_byte : List Nat → Option (List Nat)
  | [] => none
  | b :: rest => if b = START_BYTE then some rest else wait_for_start_byte rest

/-- Outcome of `SerialManager::read_message`: a message plus remaining
input, the resync signal, an IO error (end of input), a `DecodeError`, or a
Rust panic (`crash`). -/
inductive MsgOutcome where
  | ok (msg : Message) (rest : List Nat)
  | resync (rest : List Nat)
  | eof
  | decodeFail (e : DecodeError)
  | crash
  deriving DecidableEq

/-- `SerialManager::read_message` from src/serial_manager/mod.rs.  The
source computes `length - 2` on `usize`; when `length < 2` that subtraction
underflows (a panic in debug builds, a capacity-overflow abort or an
attempt to read about 2^64 bytes in release builds), modelled as `crash`. -/
def read_message (input : List Nat) : MsgOutcome :=
  match read_u16 input with
  | .ok length r1 =>
    match read_u16 r1 with
    | .ok message_type r2 =>
      if length < 2 then .crash
      else
        match read_escaped_bytes (length - 2) r2 with
        | .ok data r3 =>
          match Message.from_bytes message_type data with
          | .ok m => .ok m r3
          | .err e => .decodeFail e
          | .crash => .crash
        | .resync r => .resync r
        | .eof => .eof
    | .resync r => .resync r
    | .eof => .eof
  | .resync r => .resync r
  | .eof => .eof

/-- Outcome of `SerialManager::receive`: a message plus unconsumed input,
an `io::Error`, a `DecodeError`, or a Rust panic (`crash`). -/
inductive RecvOutcome where
  | ok (msg : Message) (rest : List Nat)
  | ioError
  | decodeFail (e : DecodeError)
  | crash
  deriving DecidableEq

/-- The retry loop inside `SerialManager::receive`: call `read_message`,
retrying on the resync signal.  Every resync strictly shortens the input,
so `input.length + 1` units of fuel always suffice
(`receiveLoop_fuel_irrelevant` below); the fuel-exhausted branch is never
reached from `receive`. -/
def receiveLoop : Nat → List Nat → RecvOutcome
  | 0, _ => .ioError
  | fuel + 1, input =>
    match read_message input with
    | .ok m r => .ok m r
    | .resync r => receiveLoop fuel r
    | .eof => .ioError
    | .decodeFail e => .decodeFail e
    | .crash => .crash

/-- `SerialManager::receive` from src/serial_manager/mod.rs: wait for a
`START_BYTE`, then loop `read_message` until it yields a message or an
error. -/
def receive (input : List Nat) : RecvOutcome :=
  match wait_for_start_byte input with
  | none => .ioError
  | some rest => receiveLoop (rest.length + 1) rest

/-! ### Basic facts about the reading primitives -/

theorem read_byte_ok_elim {xs : List Nat} {b : Nat} {r : List Nat}
    (h : read_byte xs = .ok b r) : xs = b :: r ∧ b ≠ START_BYTE := by
  cases xs with
  | nil => simp [read_byte] at h
  | cons x t =>
    simp only [read_byte] at h
    split at h
    · exact absurd h (by simp)
    · next hx =>
      cases h
      exact ⟨rfl, hx⟩

theorem read_byte_resync_elim {xs r : List Nat}
    (h : read_byte xs = .resync r) : xs = START_BYTE :: r := by
  cases xs with
  | nil => simp [read_byte] at h
  | cons x t =>
    simp only [read_byte] at h
    split at h
    · next hx =>
      cases h
      rw [hx]
    · exact absurd h (by simp)

theorem read_byte_eof_elim {xs : List Nat} (h : read_byte xs = .eof) : xs = [] := by
  cases xs with
  | nil => rfl
  | cons x t =>
    simp only [read_byte] at h
    split at h <;> exact absurd h (by simp)

theorem read_byte_cons_ne {b : Nat} (r : List Nat) (hb : b ≠ START_BYTE) :
    read_byte (b :: r) = .ok b r := by
  simp [read_byte, hb]

theorem read_byte_cons_start (r : List Nat) : read_byte (START_BYTE :: r) = .resync r := by
  simp [read_byte]

/-- The properties of a reading step used throughout: its result on an
extended input stream is determined by its result on the original stream
(in particular a step that ran out of input resyncs when the continuation
starts with a raw `START_BYTE`), and it never grows the stream. -/
structure GoodParser {α : Type} (p : Parser α) : Prop where
  ok_append : ∀ {xs t : List Nat} {a : α} {r : List Nat},
    p xs = .ok a r → p (xs ++ t) = .ok a (r ++ t)
  resync_append : ∀ {xs t r : List Nat},
    p xs = .resync r → p (xs ++ t) = .resync (r ++ t)
  eof_append : ∀ {xs t : List Nat},
    p xs = .eof → p (xs ++ START_BYTE :: t) = .resync t
  ok_length : ∀ {xs : List Nat} {a : α} {r : List Nat},
    p xs = .ok a r → r.length ≤ xs.length
  resync_length : ∀ {xs r : List Nat},
    p xs = .resync r → r.length < xs.length

theorem goodParser_ppure {α : Type} (v : α) : GoodParser (ppure v) := by
  constructor
  · intro xs t a r h
    cases h
    rfl
  · intro xs t r h
    cases h
  · intro xs t h
    cases h
  · intro xs a r h
    cases h
    exact le_refl _
  · intro xs r h
    cases h

theorem goodParser_read_byte : GoodParser read_byte := by
  constructor
  · intro xs t a r h
    obtain ⟨rfl, hb⟩ := read_byte_ok_elim h
    simp [read_byte, hb]
  · intro xs t r h
    obtain rfl := read_byte_resync_elim h
    simp [read_byte]
  · intro xs t h
    obtain rfl := read_byte_eof_elim h
    simp [read_byte]
  · intro xs a r h
    obtain ⟨rfl, -⟩ := read_byte_ok_elim h
    simp
  · intro xs r h
    obtain rfl := read_byte_resync_elim h
    simp

theorem goodParser_pbind {α β : Type} {p : Parser α} {q : α → Parser β}
    (hp : GoodParser p) (hq : ∀ a, GoodParser (q a)) : GoodParser (pbind p q) := by
  constructor
  · intro xs t a r h
    unfold pbind at h ⊢
    cases h1 : p xs with
    | ok a1 r1 =>
      simp only [h1] at h
      simp only [hp.ok_append h1]
      exact (hq a1).ok_append h
    | resync r1 => simp only [h1] at h; cases h
    | eof => simp only [h1] at h; cases h
  · intro xs t r h
    unfold pbind at h ⊢
    cases h1 : p xs with
    | ok a1 r1 =>
      simp only [h1] at h
      simp only [hp.ok_append h1]
      exact (hq a1).resync_append h
    | resync r1 =>
      simp only [h1] at h
      cases h
      simp only [hp.resync_append h1]
    | eof => simp only [h1] at h; cases h
  · intro xs t h
    unfold pbind at h ⊢
    cases h1 : p xs with
    | ok a1 r1 =>
      simp only [h1] at h
      simp only [hp.ok_append (t := START_BYTE :: t) h1]
      exact (hq a1).eof_append h
    | resync r1 => simp only [h1] at h; cases h
    | eof => simp only [hp.eof_append h1]
  · intro xs a r h
    unfold pbind at h
    cases h1 : p xs with
    | ok a1 r1 =>
      simp only [h1] at h
      exact le_trans ((hq a1).ok_length h) (hp.ok_length h1)
    | resync r1 => simp only [h1] at h; cases h
    | eof => simp only [h1] at h; cases h
  · intro xs r h
    unfold pbind at h
    cases h1 : p xs with
    | ok a1 r1 =>
      simp only [h1] at h
      exact lt_of_lt_of_le ((hq a1).resync_length h) (hp.ok_length h1)
    | resync r1 =>
      simp only [h1] at h
      cases h
      exact hp.resync_length h1
    | eof => simp only [h1] at h; cases h

theorem goodParser_ite {α : Type} (c : Prop) [Decidable c] {p q : Parser α}
    (hp : GoodParser p) (hq : GoodParser q) : GoodParser (if c then p else q) := by
  by_cases h : c
  · simpa [h] using hp
  · simpa [h] using hq

theorem goodParser_read_escaped_byte : GoodParser read_escaped_byte := by
  unfold read_escaped_byte
  exact goodParser_pbind goodParser_read_byte fun byte =>
    goodParser_ite _
      (goodParser_pbind goodParser_read_byte fun next_byte => goodParser_ppure _)
      (goodParser_ppure _)

theorem goodParser_read_escaped_bytes (n : Nat) : GoodParser (read_escaped_bytes n) := by
  induction n with
  | zero => exact goodParser_ppure []
  | succ n ih =>
    show GoodParser (pbind read_escaped_byte fun b =>
      pbind (read_escaped_bytes n) fun bs => ppure (b :: bs))
    exact goodParser_pbind goodParser_read_escaped_byte fun b =>
      goodParser_pbind ih fun bs => goodParser_ppure _

theorem goodParser_read_u16 : GoodParser read_u16 := by
  unfold read_u16
  exact goodParser_pbind goodParser_read_escaped_byte fun b0 =>
    goodParser_pbind goodParser_read_escaped_byte fun b1 => goodParser_ppure _

/-! ### The stuffing transform and its inverse -/

theorem needs_escaping_elim {b : Nat} (h : needs_escaping b = true) :
    b = START_BYTE ∨ b = ESCAPE_BYTE := by
  simpa [needs_escaping] using h

theorem needs_escaping_elim_not {b : Nat} (h : ¬ needs_escaping b = true) :
    b ≠ START_BYTE ∧ b ≠ ESCAPE_BYTE := by
  simpa [needs_escaping] using h

theorem read_escaped_byte_stuffed (b : Nat) (t : List Nat) :
    read_escaped_byte (write_escaped_byte b ++ t) = .ok b t := by
  by_cases h : needs_escaping b = true
  · have hwe : write_escaped_byte b = [ESCAPE_BYTE, b ^^^ XOR_BYTE] := by
      rw [write_escaped_byte, if_pos h]
    have hxne : b ^^^ XOR_BYTE ≠ START_BYTE := by
      rcases needs_escaping_elim h with rfl | rfl <;> decide
    have hene : ESCAPE_BYTE ≠ START_BYTE := by decide
    rw [hwe]
    simp [read_escaped_byte, pbind, ppure, List.cons_append, List.nil_append,
      read_byte_cons_ne _ hene, read_byte_cons_ne _ hxne, Nat.xor_cancel_right]
  · obtain ⟨h1, h2⟩ := needs_escaping_elim_not h
    have hwe : write_escaped_byte b = [b] := by rw [write_escaped_byte, if_neg h]
    rw [hwe]
    simp [read_escaped_byte, pbind, ppure, List.cons_append, List.nil_append,
      read_byte_cons_ne _ h1, h2]

theorem write_escaped_bytes_append (a b : List Nat) :
    write_escaped_bytes (a ++ b) = write_escaped_bytes a ++ write_escaped_bytes b := by
  induction a with
  | nil => simp [write_escaped_bytes]
  | cons x a ih => simp [write_escaped_bytes, ih, List.append_assoc]

theorem read_escaped_bytes_stuffed (bs t : List Nat) :
    read_escaped_bytes bs.length (write_escaped_bytes bs ++ t) = .ok bs t := by
  induction bs generalizing t with
  | nil => simp [write_escaped_bytes, read_escaped_bytes, ppure]
  | cons b bs ih =>
    show pbind read_escaped_byte _ _ = _
    rw [write_escaped_bytes, List.append_assoc]
    simp only [pbind, read_escaped_byte_stuffed, ih, ppure]

theorem read_u16_stuffed {n : Nat} (hn : n < 65536) (t : List Nat) :
    read_u16 (write_escaped_bytes (le_bytes2 n) ++ t) = .ok n t := by
  have hsplit : write_escaped_bytes (le_bytes2 n) ++ t =
      write_escaped_byte (n % 256) ++ (write_escaped_byte (n / 256 % 256) ++ t) := by
    simp [le_bytes2, write_escaped_bytes, List.append_assoc]
  rw [hsplit]
  show pbind read_escaped_byte _ _ = _
  simp only [pbind, ppure, read_escaped_byte_stuffed]
  have hval : n % 256 + 256 * (n / 256 % 256) = n := by omega
  rw [hval]

theorem start_not_in_write_escaped_byte (b : Nat) : START_BYTE ∉ write_escaped_byte b := by
  by_cases h : needs_escaping b = true
  · rcases needs_escaping_elim h with rfl | rfl <;> decide
  · obtain ⟨h1, -⟩ := needs_escaping_elim_not h
    rw [show write_escaped_byte b = [b] from by rw [write_escaped_byte, if_neg h]]
    simp only [List.mem_singleton]
    exact fun hc => h1 hc.symm

theorem start_not_in_write_escaped_bytes (bs : List Nat) :
    START_BYTE ∉ write_escaped_bytes bs := by
  induction bs with
  | nil => simp [write_escaped_bytes]
  | cons b bs ih =>
    rw [write_escaped_bytes]
    intro hc
    rcases List.mem_append.mp hc with h | h
    · exact start_not_in_write_escaped_byte b h
    · exact ih h

/-! ### The catalog round-trip -/

theorem from_bytes_to_bytes {m : Message} (hv : m.valid = true) :
    Message.from_bytes m.message_type m.to_bytes = .ok m := by
  cases m with
  | Bytes msg => rfl
  | U8 msg => rfl
  | MyString msg =>
    have hutf : isValidUtf8 msg.string = true := by
      simp only [Message.valid, Bool.and_eq_true] at hv
      exact hv.2
    simp [Message.message_type, Message.to_bytes, Message.from_bytes, hutf]
  | Multi msg =>
    have hutf : isValidUtf8 msg.string = true := by
      simp only [Message.valid, Bool.and_eq_true] at hv
      exact hv.2
    simp [Message.message_type, Message.to_bytes, Message.from_bytes, hutf]
  | NoOp msg => rfl
  | U16 msg =>
    have h : msg.num < 65536 := by simpa [Message.valid] using hv
    have hval : msg.num % 256 + 256 * (msg.num / 256 % 256) = msg.num := by omega
    simp [Message.message_type, Message.to_bytes, Message.from_bytes, le_bytes2, hval]
  | Status s => cases s <;> rfl

theorem message_type_lt (m : Message) : m.message_type < 65536 := by
  cases m <;> simp [Message.message_type]

/-! ### Parsing a well-formed frame -/

theorem send_eq_frameBody (m : Message) : send m = START_BYTE :: frameBody m := by
  simp [send, frameBody, le_bytes2]

theorem read_message_frameBody {m : Message} (hv : m.valid = true)
    (hl : 2 + m.to_bytes.length < 65536) (t : List Nat) :
    read_message (frameBody m ++ t) = .ok m t := by
  have hmod : (2 + m.to_bytes.length) % 65536 = 2 + m.to_bytes.length :=
    Nat.mod_eq_of_lt hl
  have h1 := read_u16_stuffed hl
    (write_escaped_bytes (le_bytes2 m.message_type) ++ (write_escaped_bytes m.to_bytes ++ t))
  have h2 := read_u16_stuffed (message_type_lt m) (write_escaped_bytes m.to_bytes ++ t)
  have h3 := read_escaped_bytes_stuffed m.to_bytes t
  have h4 : 2 + m.to_bytes.length - 2 = m.to_bytes.length := by omega
  unfold read_message frameBody
  rw [hmod, List.append_assoc, List.append_assoc]
  simp only [h1, h2]
  rw [if_neg (by omega : ¬ 2 + m.to_bytes.length < 2)]
  simp only [h4, h3, from_bytes_to_bytes hv]

/-! ### Extension lemmas for `read_message` and the receive loop -/

/-- How a non-EOF `read_message` outcome transfers to an extended input
stream: only the leftover stream grows. -/
def MsgOutcome.appendRest (t : List Nat) : MsgOutcome → MsgOutcome
  | .ok m r => .ok m (r ++ t)
  | .resync r => .resync (r ++ t)
  | .eof => .eof
  | .decodeFail e => .decodeFail e
  | .crash => .crash

theorem read_message_append (xs t : List Nat) (h : read_message xs ≠ .eof) :
    read_message (xs ++ t) = (read_message xs).appendRest t := by
  unfold read_message at h ⊢
  cases h1 : read_u16 xs with
  | ok L r1 =>
    simp only [h1] at h ⊢
    simp only [goodParser_read_u16.ok_append h1]
    cases h2 : read_u16 r1 with
    | ok T r2 =>
      simp only [h2] at h ⊢
      simp only [goodParser_read_u16.ok_append h2]
      by_cases hL : L < 2
      · simp [hL, MsgOutcome.appendRest]
      · simp only [if_neg hL] at h ⊢
        cases h3 : read_escaped_bytes (L - 2) r2 with
        | ok data r3 =>
          simp only [h3] at h ⊢
          simp only [(goodParser_read_escaped_bytes (L - 2)).ok_append h3]
          cases Message.from_bytes T data <;> simp [MsgOutcome.appendRest]
        | resync r =>
          simp only [h3] at h ⊢
          simp only [(goodParser_read_escaped_bytes (L - 2)).resync_append h3,
            MsgOutcome.appendRest]
        | eof => simp only [h3] at h ⊢; exact absurd rfl h
    | resync r =>
      simp only [h2] at h ⊢
      simp only [goodParser_read_u16.resync_append h2, MsgOutcome.appendRest]
    | eof => simp only [h2] at h ⊢; exact absurd rfl h
  | resync r =>
    simp only [h1] at h ⊢
    simp only [goodParser_read_u16.resync_append h1, MsgOutcome.appendRest]
  | eof => simp only [h1] at h ⊢; exact absurd rfl h

theorem read_message_eof_append {xs : List Nat} (t : List Nat)
    (h : read_message xs = .eof) :
    read_message (xs ++ START_BYTE :: t) = .resync t := by
  unfold read_message at h ⊢
  cases h1 : read_u16 xs with
  | ok L r1 =>
    simp only [h1] at h
    simp only [goodParser_read_u16.ok_append h1]
    cases h2 : read_u16 r1 with
    | ok T r2 =>
      simp only [h2] at h
      simp only [goodParser_read_u16.ok_append h2]
      by_cases hL : L < 2
      · simp [hL] at h
      · simp only [if_neg hL] at h ⊢
        cases h3 : read_escaped_bytes (L - 2) r2 with
        | ok data r3 =>
          simp only [h3] at h
          cases hf : Message.from_bytes T data <;> simp [hf] at h
        | resync r => simp only [h3] at h; cases h
        | eof => simp only [(goodParser_read_escaped_bytes (L - 2)).eof_append h3]
    | resync r => simp only [h2] at h; cases h
    | eof => simp only [goodParser_read_u16.eof_append h2]
  | resync r => simp only [h1] at h; cases h
  | eof => simp only [goodParser_read_u16.eof_append h1]

theorem read_message_resync_length {input r : List Nat}
    (h : read_message input = .resync r) : r.length < input.length := by
  unfold read_message at h
  cases h1 : read_u16 input with
  | ok L r1 =>
    simp only [h1] at h
    have hr1 := goodParser_read_u16.ok_length h1
    cases h2 : read_u16 r1 with
    | ok T r2 =>
      simp only [h2] at h
      have hr2 := goodParser_read_u16.ok_length h2
      by_cases hL : L < 2
      · simp [hL] at h
      · simp only [if_neg hL] at h
        cases h3 : read_escaped_bytes (L - 2) r2 with
        | ok data r3 =>
          simp only [h3] at h
          cases hf : Message.from_bytes T data <;> simp [hf] at h
        | resync r4 =>
          simp only [h3] at h
          cases h
          have := (goodParser_read_escaped_bytes (L - 2)).resync_length h3
          omega
        | eof => simp only [h3] at h; cases h
    | resync r4 =>
      simp only [h2] at h
      cases h
      have := goodParser_read_u16.resync_length h2
      omega
    | eof => simp only [h2] at h; cases h
  | resync r4 =>
    simp only [h1] at h
    cases h
    exact goodParser_read_u16.resync_length h1
  | eof => simp only [h1] at h; cases h

theorem read_message_proper_prefix_eof {p t : List Nat} (ht : t ≠ []) {m : Message}
    (hfull : read_message (p ++ t) = .ok m []) : read_message p = .eof := by
  cases hrm : read_message p with
  | eof => rfl
  | ok m1 r =>
    have h2 := read_message_append p t (by simp [hrm])
    rw [hfull, hrm] at h2
    simp only [MsgOutcome.appendRest, MsgOutcome.ok.injEq] at h2
    exact absurd (List.append_eq_nil.mp h2.2.symm).2 ht
  | resync r =>
    have h2 := read_message_append p t (by simp [hrm])
    rw [hfull, hrm] at h2
    simp [MsgOutcome.appendRest] at h2
  | decodeFail e =>
    have h2 := read_message_append p t (by simp [hrm])
    rw [hfull, hrm] at h2
    simp [MsgOutcome.appendRest] at h2
  | crash =>
    have h2 := read_message_append p t (by simp [hrm])
    rw [hfull, hrm] at h2
    simp [MsgOutcome.appendRest] at h2

theorem receiveLoop_ok {input : List Nat} {m : Message} {r : List Nat}
    (h : read_message input = .ok m r) (n : Nat) :
    receiveLoop (n + 1) input = .ok m r := by
  simp [receiveLoop, h]

theorem receiveLoop_resync {input r : List Nat}
    (h : read_message input = .resync r) (n : Nat) :
    receiveLoop (n + 1) input = receiveLoop n r := by
  simp [receiveLoop, h]

theorem receiveLoop_decodeFail {input : List Nat} {e : DecodeError}
    (h : read_message input = .decodeFail e) (n : Nat) :
    receiveLoop (n + 1) input = .decodeFail e := by
  simp [receiveLoop, h]

/-- Any fuel beyond the input length gives the same result: the
fuel-exhausted branch of `receiveLoop` is unreachable from `receive`,
because every resync consumes at least one byte. -/
theorem receiveLoop_fuel_irrelevant :
    ∀ (f g : Nat) (input : List Nat), input.length < f → input.length < g →
      receiveLoop f input = receiveLoop g input := by
  intro f
  induction f with
  | zero => intro g input hf; omega
  | succ f ih =>
    intro g input hf hg
    cases g with
    | zero => omega
    | succ g =>
      cases h : read_message input with
      | ok m r => simp [receiveLoop, h]
      | resync r =>
        rw [receiveLoop_resync h, receiveLoop_resync h]
        have := read_message_resync_length h
        exact ih g r (by omega) (by omega)
      | eof => simp [receiveLoop, h]
      | decodeFail e => simp [receiveLoop, h]
      | crash => simp [receiveLoop, h]

theorem wait_for_start_skip {G : List Nat} (hG : START_BYTE ∉ G) (r : List Nat) :
    wait_for_start_byte (G ++ START_BYTE :: r) = some r := by
  induction G with
  | nil => simp [wait_for_start_byte]
  | cons g G ih =>
    have hg : ¬ g = START_BYTE := fun h => hG (h ▸ List.mem_cons_self g G)
    rw [List.cons_append, wait_for_start_byte, if_neg hg]
    exact ih fun h => hG (List.mem_cons_of_mem g h)

theorem receive_start (r : List Nat) :
    receive (START_BYTE :: r) = receiveLoop (r.length + 1) r := by
  simp [receive, wait_for_start_byte]

/-! ### The claims -/

/-- C1: for every valid message whose frame length `2 + |payload|` fits in
a u16, writing the frame `send` produces into a memory buffer and calling
`receive` on a transport containing exactly those bytes yields the original
message (and consumes the whole buffer). -/
theorem frame_roundtrip (m : Message) (hv : m.valid = true)
    (hl : 2 + m.to_bytes.length < 65536) :
    receive (send m) = .ok m [] := by
  rw [send_eq_frameBody, receive_start]
  have hok : read_message (frameBody m) = .ok m [] := by
    have h := read_message_frameBody hv hl []
    rwa [List.append_nil] at h
  exact receiveLoop_ok hok _

theorem frame_roundtrip_witness :
    (Message.Bytes ⟨[0x58, 0x42, 0x07]⟩).valid = true ∧
    2 + (Message.Bytes ⟨[0x58, 0x42, 0x07]⟩).to_bytes.length < 65536 ∧
    receive (send (Message.Bytes ⟨[0x58, 0x42, 0x07]⟩)) =
      .ok (Message.Bytes ⟨[0x58, 0x42, 0x07]⟩) [] :=
  ⟨by decide, by decide, frame_roundtrip _ (by decide) (by decide)⟩

/-- C2: for every message whose length `2 + |payload|` fits in a u16,
`send` writes exactly one raw `START_BYTE` followed by the stuffed encoding
of `[len_lo, len_hi, type_lo, type_hi, payload...]` with
`length = 2 + |payload|`, both fields little-endian, and nothing else. -/
theorem send_wire_format (m : Message) (hl : 2 + m.to_bytes.length < 65536) :
    send m = START_BYTE ::
      write_escaped_bytes
        ([(2 + m.to_bytes.length) % 256, (2 + m.to_bytes.length) / 256 % 256] ++
          [m.message_type % 256, m.message_type / 256 % 256] ++
          m.to_bytes) := by
  rw [send_eq_frameBody]
  unfold frameBody
  rw [Nat.mod_eq_of_lt hl, write_escaped_bytes_append, write_escaped_bytes_append]
  simp [le_bytes2]

theorem send_wire_format_witness :
    2 + (Message.Bytes ⟨[0x58]⟩).to_bytes.length < 65536 ∧
    send (Message.Bytes ⟨[0x58]⟩) = START_BYTE ::
      write_escaped_bytes
        ([(2 + (Message.Bytes ⟨[0x58]⟩).to_bytes.length) % 256,
          (2 + (Message.Bytes ⟨[0x58]⟩).to_bytes.length) / 256 % 256] ++
          [(Message.Bytes ⟨[0x58]⟩).message_type % 256,
            (Message.Bytes ⟨[0x58]⟩).message_type / 256 % 256] ++
          (Message.Bytes ⟨[0x58]⟩).to_bytes) :=
  ⟨by decide, send_wire_format _ (by decide)⟩

/-- C3: for every message in the catalog's valid value space, decoding its
own encoding succeeds and returns an equal message:
`Message::from_bytes(m.message_type(), m.to_bytes()) == Ok(m)`. -/
theorem codec_roundtrip (m : Message) (hv : m.valid = true) :
    Message.from_bytes m.message_type m.to_bytes = .ok m :=
  from_bytes_to_bytes hv

theorem codec_roundtrip_witness :
    (Message.Multi ⟨0x42, [0xC3, 0xA9]⟩).valid = true ∧
    Message.from_bytes (Message.Multi ⟨0x42, [0xC3, 0xA9]⟩).message_type
      (Message.Multi ⟨0x42, [0xC3, 0xA9]⟩).to_bytes =
      .ok (Message.Multi ⟨0x42, [0xC3, 0xA9]⟩) :=
  ⟨by decide, codec_roundtrip _ (by decide)⟩

/-- C4 (counterexample to the claim as stated): `P := frame(msg1)` itself
is a prefix of `frame(msg1)` with `|P| ≥ 1` containing exactly one raw
`START_BYTE`, yet `receive(P ++ frame(msg2))` returns `msg1`, not `msg2`:
the claim fails for the improper prefix. -/
theorem midframe_resync_full_prefix_cex :
    send (Message.NoOp ⟨⟩) ++ [] = send (Message.NoOp ⟨⟩) ∧
    1 ≤ (send (Message.NoOp ⟨⟩)).length ∧
    (send (Message.NoOp ⟨⟩)).count START_BYTE = 1 ∧
    receive (send (Message.NoOp ⟨⟩) ++ send (Message.U8 ⟨0x57⟩)) =
      .ok (Message.NoOp ⟨⟩) (send (Message.U8 ⟨0x57⟩)) ∧
    Message.NoOp ⟨⟩ ≠ Message.U8 ⟨0x57⟩ := by
  decide

/-- C4 (amended): for every pair of valid messages whose frames fit in a
u16 and every proper, nonempty prefix `P` of `frame(msg1)` containing
exactly one raw `START_BYTE` (the initial one), `receive` on
`P ++ frame(msg2)` abandons the interrupted frame — even when `P` ends
right after a raw `ESCAPE_BYTE` — and returns `msg2`. -/
theorem midframe_resync_proper (msg1 msg2 : Message)
    (h1 : msg1.valid = true) (h2 : msg2.valid = true)
    (hl1 : 2 + msg1.to_bytes.length < 65536) (hl2 : 2 + msg2.to_bytes.length < 65536)
    {P t : List Nat} (hpre : P ++ t = send msg1) (hproper : t ≠ [])
    (hlen : 1 ≤ P.length) (hcount : P.count START_BYTE = 1) :
    receive (P ++ send msg2) = .ok msg2 [] := by
  rcases P with _ | ⟨a, p⟩
  · simp at hlen
  · rw [send_eq_frameBody msg1, List.cons_append] at hpre
    obtain ⟨rfl, hp⟩ : a = START_BYTE ∧ p ++ t = frameBody msg1 := by
      refine ⟨?_, ?_⟩ <;> injection hpre
    have hfull : read_message (p ++ t) = .ok msg1 [] := by
      rw [hp]
      have h := read_message_frameBody h1 hl1 []
      rwa [List.append_nil] at h
    have heof : read_message p = .eof := read_message_proper_prefix_eof hproper hfull
    rw [List.cons_append, receive_start, send_eq_frameBody msg2]
    have hres : read_message (p ++ START_BYTE :: frameBody msg2) =
        .resync (frameBody msg2) := read_message_eof_append _ heof
    rw [receiveLoop_resync hres]
    have hok : read_message (frameBody msg2) = .ok msg2 [] := by
      have h := read_message_frameBody h2 hl2 []
      rwa [List.append_nil] at h
    have hlen2 : (p ++ START_BYTE :: frameBody msg2).length =
        (p.length + (frameBody msg2).length) + 1 := by
      simp [List.length_append]
      omega
    rw [hlen2]
    exact receiveLoop_ok hok _

theorem midframe_resync_proper_witness :
    (Message.Bytes ⟨[0x58, 1]⟩).valid = true ∧
    (Message.U8 ⟨7⟩).valid = true ∧
    [0x58, 0x04, 0x00, 0x00, 0x00, 0x42] ++ [0x31, 0x01] =
      send (Message.Bytes ⟨[0x58, 1]⟩) ∧
    receive ([0x58, 0x04, 0x00, 0x00, 0x00, 0x42] ++ send (Message.U8 ⟨7⟩)) =
      .ok (Message.U8 ⟨7⟩) [] :=
  ⟨by decide, by decide, by decide,
    midframe_resync_proper (Message.Bytes ⟨[0x58, 1]⟩) (Message.U8 ⟨7⟩)
      (by decide) (by decide) (by decide) (by decide)
      (show [0x58, 0x04, 0x00, 0x00, 0x00, 0x42] ++ [0x31, 0x01] =
        send (Message.Bytes ⟨[0x58, 1]⟩) by decide)
      (by decide) (by decide) (by decide)⟩

/-- C5: in the byte sequence `send` writes, `START_BYTE` occurs only as the
first byte; every sensitive logical byte is emitted as exactly the two raw
bytes `ESCAPE_BYTE` then the byte XOR `XOR_BYTE`, and neither transformed
byte is itself sensitive, so escaping never cascades. -/
theorem start_byte_only_first (m : Message) :
    (send m).head? = some START_BYTE ∧
    START_BYTE ∉ (send m).tail ∧
    (∀ b, needs_escaping b = true →
      write_escaped_byte b = [ESCAPE_BYTE, b ^^^ XOR_BYTE]) ∧
    needs_escaping (START_BYTE ^^^ XOR_BYTE) = false ∧
    needs_escaping (ESCAPE_BYTE ^^^ XOR_BYTE) = false := by
  refine ⟨?_, ?_, ?_, by decide, by decide⟩
  · rw [send_eq_frameBody]
    rfl
  · rw [send_eq_frameBody, List.tail_cons]
    unfold frameBody
    intro hmem
    rcases List.mem_append.mp hmem with h | h
    · rcases List.mem_append.mp h with h2 | h2 <;>
        exact start_not_in_write_escaped_bytes _ h2
    · exact start_not_in_write_escaped_bytes _ h
  · intro b hb
    rw [write_escaped_byte, if_pos hb]

theorem start_byte_only_first_witness :
    needs_escaping START_BYTE = true ∧
    write_escaped_byte START_BYTE = [ESCAPE_BYTE, START_BYTE ^^^ XOR_BYTE] :=
  ⟨by decide, (start_byte_only_first (Message.NoOp ⟨⟩)).2.2.1 START_BYTE (by decide)⟩

/-- C6: for every byte sequence `G` with no occurrence of `START_BYTE` and
every valid message whose frame fits in a u16, `receive` on `G` followed by
the message's frame silently discards the garbage and returns the
message. -/
theorem garbage_prefix_resync (G : List Nat) (hG : START_BYTE ∉ G) (m : Message)
    (hv : m.valid = true) (hl : 2 + m.to_bytes.length < 65536) :
    receive (G ++ send m) = .ok m [] := by
  rw [send_eq_frameBody]
  unfold receive
  rw [wait_for_start_skip hG]
  have hok : read_message (frameBody m) = .ok m [] := by
    have h := read_message_frameBody hv hl []
    rwa [List.append_nil] at h
  exact receiveLoop_ok hok _

theorem garbage_prefix_resync_witness :
    START_BYTE ∉ [0x00, 0xFF, 0x42, 0x13] ∧
    (Message.U8 ⟨0x57⟩).valid = true ∧
    2 + (Message.U8 ⟨0x57⟩).to_bytes.length < 65536 ∧
    receive ([0x00, 0xFF, 0x42, 0x13] ++ send (Message.U8 ⟨0x57⟩)) =
      .ok (Message.U8 ⟨0x57⟩) [] :=
  ⟨by decide, by decide, by decide,
    garbage_prefix_resync [0x00, 0xFF, 0x42, 0x13] (by decide) _ (by decide) (by decide)⟩

/-- C7: on under-length payloads for fixed-shape tags — tag 1 (`U8`), tag 3
(`Multi`) and tag 6 (`Status`) with an empty payload, tag 5 (`U16`) with
fewer than 2 bytes — `Message::from_bytes` does not return a recoverable
`DecodeError`: it indexes out of bounds and panics (`crash`). -/
theorem underlength_payload_crash :
    Message.from_bytes 1 [] = .crash ∧
    Message.from_bytes 6 [] = .crash ∧
    Message.from_bytes 3 [] = .crash ∧
    Message.from_bytes 5 [] = .crash ∧
    Message.from_bytes 5 [0x34] = .crash := by
  decide

/-- C8: decoding a completely received frame fails with exactly
`InvalidMessageType(tag)` for every unknown tag, `InvalidUtf8` for
malformed text in `MyString` or the text portion of `Multi`, and
`InvalidEnumValue(byte)` for a `Status` discriminant outside `{0, 1, 2}` —
and with no other errors; `receive` returns such a `DecodeError` to the
caller without automatically resyncing to a following frame. -/
theorem decode_error_classification :
    (∀ t data, 7 ≤ t → Message.from_bytes t data = .err (.InvalidMessageType t)) ∧
    (∀ data, isValidUtf8 data = false → Message.from_bytes 2 data = .err .InvalidUtf8) ∧
    (∀ b rest, isValidUtf8 rest = false →
      Message.from_bytes 3 (b :: rest) = .err .InvalidUtf8) ∧
    (∀ b rest, 3 ≤ b → Message.from_bytes 6 (b :: rest) = .err (.InvalidEnumValue b)) ∧
    (∀ t data e, Message.from_bytes t data = .err e →
      (7 ≤ t ∧ e = .InvalidMessageType t) ∨
      ((t = 2 ∨ t = 3) ∧ e = .InvalidUtf8) ∨
      (t = 6 ∧ ∃ b, 3 ≤ b ∧ e = .InvalidEnumValue b)) ∧
    (∀ input r e, wait_for_start_byte input = some r →
      read_message r = .decodeFail e → receive input = .decodeFail e) := by
  refine ⟨?_, ?_, ?_, ?_, ?_, ?_⟩
  · intro t data ht
    obtain ⟨k, rfl⟩ : ∃ k, t = k + 7 := ⟨t - 7, by omega⟩
    rfl
  · intro data h
    simp [Message.from_bytes, h]
  · intro b rest h
    simp [Message.from_bytes, h]
  · intro b rest hb
    obtain ⟨k, rfl⟩ : ∃ k, b = k + 3 := ⟨b - 3, by omega⟩
    rfl
  · intro t data e h
    rcases t with _ | _ | _ | _ | _ | _ | _ | t
    · simp [Message.from_bytes] at h
    · rcases data with _ | ⟨b, rest⟩ <;> simp [Message.from_bytes] at h
    · by_cases hu : isValidUtf8 data = true <;> simp [Message.from_bytes, hu] at h
      exact Or.inr (Or.inl ⟨Or.inl rfl, h.symm⟩)
    · rcases data with _ | ⟨b, rest⟩
      · simp [Message.from_bytes] at h
      · by_cases hu : isValidUtf8 rest = true <;> simp [Message.from_bytes, hu] at h
        exact Or.inr (Or.inl ⟨Or.inr rfl, h.symm⟩)
    · simp [Message.from_bytes] at h
    · rcases data with _ | ⟨b0, _ | ⟨b1, rest⟩⟩ <;> simp [Message.from_bytes] at h
    · rcases data with _ | ⟨b, rest⟩
      · simp [Message.from_bytes] at h
      · rcases b with _ | _ | _ | k <;> simp [Message.from_bytes] at h
        exact Or.inr (Or.inr ⟨rfl, k + 3, by omega, h.symm⟩)
    · have : Message.from_bytes (t + 7) data = .err (.InvalidMessageType (t + 7)) := rfl
      rw [this] at h
      cases h
      exact Or.inl ⟨by omega, rfl⟩
  · intro input r e hw hr
    unfold receive
    rw [hw]
    exact receiveLoop_decodeFail hr _

theorem decode_error_classification_witness :
    Message.from_bytes 7 [] = .err (.InvalidMessageType 7) ∧
    Message.from_bytes 2 [0xFF] = .err .InvalidUtf8 ∧
    Message.from_bytes 6 [3] = .err (.InvalidEnumValue 3) ∧
    receive ([START_BYTE, 2, 0, 7, 0] ++ send (Message.NoOp ⟨⟩)) =
      .decodeFail (.InvalidMessageType 7) :=
  ⟨decode_error_classification.1 7 [] (by decide),
    decode_error_classification.2.1 [0xFF] (by decide),
    decode_error_classification.2.2.2.1 3 [] (by decide),
    decode_error_classification.2.2.2.2.2 ([START_BYTE, 2, 0, 7, 0] ++ send (Message.NoOp ⟨⟩))
      ([2, 0, 7, 0] ++ send (Message.NoOp ⟨⟩)) (.InvalidMessageType 7)
      (by decide) (by decide)⟩

/-- C9: on a decoded length field below 2 the receiver does not treat the
frame error recoverably; `read_message` computes `length - 2` on `usize`,
which underflows — a panic in debug builds, an attempt to allocate and read
about 2^64 bytes in release builds — modelled as `crash`. -/
theorem short_length_field_crash :
    receive [START_BYTE, 0x00, 0x00, 0x04, 0x00] = .crash ∧
    receive [START_BYTE, 0x01, 0x00, 0x04, 0x00] = .crash := by
  decide

/-- C10: decoding never rejects over-length payloads for fixed-shape
variants: tag 4 (`NoOp`) accepts any payload, tag 1 (`U8`) uses only the
first byte, tag 6 (`Status`) inspects only the first byte, and tag 5
(`U16`) uses only the first two bytes — trailing bytes are ignored. -/
theorem overlength_payload_ignored :
    (∀ data, Message.from_bytes 4 data = .ok (.NoOp ⟨⟩)) ∧
    (∀ b rest, Message.from_bytes 1 (b :: rest) = .ok (.U8 ⟨b⟩)) ∧
    (∀ b rest, Message.from_bytes 6 (b :: rest) = Message.from_bytes 6 [b]) ∧
    (∀ b0 b1 rest, Message.from_bytes 5 (b0 :: b1 :: rest) = .ok (.U16 ⟨b0 + 256 * b1⟩)) := by
  refine ⟨fun data => rfl, fun b rest => rfl, ?_, fun b0 b1 rest => rfl⟩
  intro b rest
  rcases b with _ | _ | _ | k <;> rfl

end SerialProtocol
